import Mathlib

/-!
# Battleship placement rules: a shallow embedding of `placement.cpp`

The development embeds `Placement::canPlace` and `Placement::place`
(src/placement.cpp) together with the value types of `types.h`, `ship.h`,
`board.h` and `fleet.h`, and settles the placement contract against them.

Modelling conventions

* C++ `int` is `Int`.  The only arithmetic in the embedded code is
  `p.col += cell.col` / `p.row += cell.row`; its result is used solely
  through `Board::isInside`, and whenever the anchor is inside the board a
  wrapped and an unwrapped sum are both outside `[0,9]` together, so no
  modulus is needed.  `f.ships.size()` is the length of the list, as an `Int`
  where the code converts it to `int`; fleets are taken to be shorter than
  `2^31` ships, so that the conversion is exact.
* `std::array<std::array<T,10>,10>` is a function `Fin 10 → Fin 10 → T`.
* The `Board` accessors have a precondition (`isInside`); they are embedded as
  fallible functions in `Except BoardError`.
* Mutation through `Board&` / `Fleet&` is explicit state passing: `place`
  returns the id together with the board and the fleet after the call.
-/

namespace Battleship

/-! ## types.h -/

/-- State of one board cell (`enum class CellState`). -/
inductive CellState where
  | Empty
  | Ship
  | Hit
  | Miss
  deriving DecidableEq, Repr

/-- Ship direction (`enum class Orientation`). -/
inductive Orientation where
  | Vertical
  | Horizontal
  deriving DecidableEq, Repr

/-- Board coordinates (`struct Position`), two C++ `int`s. -/
structure Position where
  row : Int
  col : Int
  deriving DecidableEq, Repr

/-! ## ship.h -/

/-- The `struct Ship` of ship.h, field for field. -/
structure Ship where
  name : String
  size : Int
  cells : List Position
  start : Position
  orientation : Orientation
  hits : Int
  sunk : Bool
  deriving DecidableEq, Repr

/-- Modelled from the spec: `Ship::isValidPrototype` is declared in ship.h
(`name != "" && size > 0`) and its body is not part of the sources. -/
def Ship.isValidPrototype (proto : Ship) : Bool :=
  proto.name != "" && decide (0 < proto.size)

/-! ## board.h -/

/-- Error kind raised by a `Board` accessor whose precondition is violated. -/
inductive BoardError where
  | outOfBounds
  deriving DecidableEq, Repr

/-- The constant `Board::kSize`. -/
def kSize : Int := 10

/-- The constant `Board::kNoShipId`. -/
def kNoShipId : Int := -1

/-- The `struct Board` of board.h: the cell-state grid and the inverse
ship-id index, both 10 by 10. -/
structure Board where
  grid : Fin 10 → Fin 10 → CellState
  shipIdAt : Fin 10 → Fin 10 → Int

/-- Array index of a coordinate; meaningful for coordinates in `[0,9]`, the
only ones the accessors let through. -/
def idx (i : Int) : Fin 10 := ⟨i.toNat % 10, Nat.mod_lt _ (by decide)⟩

/-- Modelled from the spec: `Board::isInside` is declared in board.h
(`0 ≤ row,col < kSize`) and its body is not part of the sources. -/
def Board.isInside (p : Position) : Bool :=
  decide (0 ≤ p.row) && decide (p.row < kSize) && decide (0 ≤ p.col) && decide (p.col < kSize)

/-- Modelled from the spec: `Board::reset` is declared in board.h (every cell
`Empty`, every id `kNoShipId`); this is the board it leaves. -/
def Board.empty : Board :=
  { grid := fun _ _ => CellState.Empty, shipIdAt := fun _ _ => kNoShipId }

/-- Modelled from the spec: `Board::get` is declared in board.h with
precondition `isInside(p)`; outside it fails with the out-of-bounds error. -/
def Board.get (b : Board) (p : Position) : Except BoardError CellState :=
  if Board.isInside p then Except.ok (b.grid (idx p.row) (idx p.col))
  else Except.error BoardError.outOfBounds

/-- Modelled from the spec: `Board::set` is declared in board.h with
precondition `isInside(p)`; it writes one cell of the grid. -/
def Board.set (b : Board) (p : Position) (s : CellState) : Except BoardError Board :=
  if Board.isInside p then
    Except.ok { b with grid := fun r c => if r = idx p.row ∧ c = idx p.col then s else b.grid r c }
  else Except.error BoardError.outOfBounds

/-- Modelled from the spec: `Board::getShipId` is declared in board.h with
precondition `isInside(p)`. -/
def Board.getShipId (b : Board) (p : Position) : Except BoardError Int :=
  if Board.isInside p then Except.ok (b.shipIdAt (idx p.row) (idx p.col))
  else Except.error BoardError.outOfBounds

/-- Modelled from the spec: `Board::setShipId` is declared in board.h with
precondition `isInside(p)`; it writes one entry of the inverse index. -/
def Board.setShipId (b : Board) (p : Position) (shipId : Int) : Except BoardError Board :=
  if Board.isInside p then
    Except.ok { b with
      shipIdAt := fun r c => if r = idx p.row ∧ c = idx p.col then shipId else b.shipIdAt r c }
  else Except.error BoardError.outOfBounds

deriving instance DecidableEq for Except

/-! ## fleet.h -/

/-- The `struct Fleet` of fleet.h: the ships in insertion order. -/
structure Fleet where
  ships : List Ship
  deriving DecidableEq, Repr

/-- The fleet before any ship is placed. -/
def Fleet.empty : Fleet := { ships := [] }

/-! ## placement.cpp -/

/-- Loop body prefix shared by both loops of placement.cpp:
`Position p = start; if (orient == Horizontal) p.col += cell.col; else p.row += cell.row;` -/
def shifted (start : Position) (orient : Orientation) (cell : Position) : Position :=
  if orient = Orientation.Horizontal then { start with col := start.col + cell.col }
  else { start with row := start.row + cell.row }

/-- The `for (const auto& cell : proto.cells)` loop of `Placement::canPlace`,
with its early `return false` and the final `return true`. -/
def canPlaceLoop (start : Position) (orient : Orientation) (b : Board) :
    List Position → Except BoardError Bool
  | [] => Except.ok true
  | cell :: rest =>
    let p := shifted start orient cell
    if !Board.isInside p then Except.ok false
    else
      match b.get p with
      | Except.error e => Except.error e
      | Except.ok s =>
        if s ≠ CellState.Empty then Except.ok false
        else canPlaceLoop start orient b rest

/-- The function `Placement::canPlace` (placement.cpp lines 9-24).  The fleet
argument is received and never read. -/
def canPlace (proto : Ship) (start : Position) (orient : Orientation) (b : Board)
    (_f : Fleet) : Except BoardError Bool :=
  if !Board.isInside start then Except.ok false
  else canPlaceLoop start orient b proto.cells

/-- The `for (const auto& cell : proto.cells)` loop of `Placement::place`:
`b.set(p, CellState::Ship); b.setShipId(p, f.ships.size());`. -/
def placeLoop (start : Position) (orient : Orientation) (f : Fleet) :
    List Position → Board → Except BoardError Board
  | [], b => Except.ok b
  | cell :: rest, b =>
    let p := shifted start orient cell
    match b.set p CellState.Ship with
    | Except.error e => Except.error e
    | Except.ok b1 =>
      match b1.setShipId p (f.ships.length : Int) with
      | Except.error e => Except.error e
      | Except.ok b2 => placeLoop start orient f rest b2

/-- The function `Placement::place` (placement.cpp lines 26-43): the returned
id, then the board and the fleet as the call leaves them. -/
def place (proto : Ship) (start : Position) (orient : Orientation) (b : Board)
    (f : Fleet) : Except BoardError (Int × Board × Fleet) :=
  match canPlace proto start orient b f with
  | Except.error e => Except.error e
  | Except.ok false => Except.ok (-1, b, f)
  | Except.ok true =>
    match placeLoop start orient f proto.cells b with
    | Except.error e => Except.error e
    | Except.ok b1 =>
      let f1 : Fleet := { ships := f.ships ++ [proto] }
      Except.ok ((f1.ships.length : Int) - 1, b1, f1)

/-! ## Vocabulary of the placement contract -/

/-- The straight-line sequence that placement.h derives from
`(start, orient, size)`: `start` shifted by `k` columns (Horizontal) or by `k`
rows (Vertical), for `k = 0 .. size-1`, in order from the anchor. -/
def footprint (start : Position) (orient : Orientation) (size : Int) : List Position :=
  (List.range size.toNat).map fun k =>
    if orient = Orientation.Horizontal then { start with col := start.col + (k : Int) }
    else { start with row := start.row + (k : Int) }

/-- Modelled from the spec: `Placement::neighborhood` is declared in
placement.h and has no body in the sources: the up to 8 orthogonal and
diagonal neighbours of `pos`, those outside the board discarded. -/
def neighborhood (pos : Position) : List Position :=
  ([(-1, -1), (-1, 0), (-1, 1), (0, -1), (0, 1), (1, -1), (1, 0), (1, 1)].map
    fun (d : Int × Int) => ({ row := pos.row + d.1, col := pos.col + d.2 } : Position)).filter
    Board.isInside

/-- One request to `Placement::place`: prototype, anchor, orientation. -/
structure PlaceCall where
  proto : Ship
  start : Position
  orient : Orientation

/-- A caller issuing `place` calls one after the other on the same board and
fleet, whatever each call returns. -/
def placeAll : List PlaceCall → Board → Fleet → Except BoardError (Board × Fleet)
  | [], b, f => Except.ok (b, f)
  | c :: rest, b, f =>
    match place c.proto c.start c.orient b f with
    | Except.error e => Except.error e
    | Except.ok (_, b1, f1) => placeAll rest b1 f1

/-- The grid / inverse-index invariant of board.h, for every cell of the
board: the id is `kNoShipId` exactly on `Empty` and `Miss` cells, and differs
from it exactly on `Ship` and `Hit` cells. -/
def gridIndexInv (b : Board) : Prop :=
  ∀ r c : Fin 10,
    (b.shipIdAt r c = kNoShipId ↔ (b.grid r c = CellState.Empty ∨ b.grid r c = CellState.Miss)) ∧
    (b.shipIdAt r c ≠ kNoShipId ↔ (b.grid r c = CellState.Ship ∨ b.grid r c = CellState.Hit))

/-- Whether the commit loop over `cells` writes the array entry `(r, c)`. -/
def written (start : Position) (orient : Orientation) (cells : List Position)
    (r c : Fin 10) : Prop :=
  ∃ cell ∈ cells, r = idx (shifted start orient cell).row ∧
    c = idx (shifted start orient cell).col

/-- The loop of `Placement::canPlace` as a state transformer: the answer
together with the board and the fleet as the loop leaves them.  The body calls
only the static `Board::isInside` and the const accessor `Board::get`, and
never touches `f`. -/
def canPlaceLoopRun (start : Position) (orient : Orientation) :
    List Position → Board → Fleet → Except BoardError (Bool × Board × Fleet)
  | [], b, f => Except.ok (true, b, f)
  | cell :: rest, b, f =>
    let p := shifted start orient cell
    if !Board.isInside p then Except.ok (false, b, f)
    else
      match b.get p with
      | Except.error e => Except.error e
      | Except.ok s =>
        if s ≠ CellState.Empty then Except.ok (false, b, f)
        else canPlaceLoopRun start orient rest b f

/-- The function `Placement::canPlace` as a state transformer: what it
returns, then the board and the fleet after the call. -/
def canPlaceRun (proto : Ship) (start : Position) (orient : Orientation) (b : Board)
    (f : Fleet) : Except BoardError (Bool × Board × Fleet) :=
  if !Board.isInside start then Except.ok (false, b, f)
  else canPlaceLoopRun start orient proto.cells b f

/-- Every entry of the inverse index is the sentinel or an index into
`f.ships`. -/
def idsValid (b : Board) (f : Fleet) : Prop :=
  ∀ r c : Fin 10, b.shipIdAt r c = kNoShipId ∨
    (0 ≤ b.shipIdAt r c ∧ b.shipIdAt r c < (f.ships.length : Int))

/-- The cell that both loops of placement.cpp visit for the element `c` of
`proto.cells`, written out: `(start.row, start.col + c.col)` when Horizontal,
`(start.row + c.row, start.col)` when Vertical. -/
def tracedCell (start : Position) (orient : Orientation) (c : Position) : Position :=
  match orient with
  | Orientation.Horizontal => ⟨start.row, start.col + c.col⟩
  | Orientation.Vertical => ⟨start.row + c.row, start.col⟩

/-! ## Sample data -/

/-- A prototype as section 4.2 describes it: name and size, no committed cells. -/
def bareProto (name : String) (size : Int) : Ship :=
  { name := name, size := size, cells := [], start := ⟨0, 0⟩,
    orientation := Orientation.Horizontal, hits := 0, sunk := false }

/-- A prototype whose cells are the offsets `(k, k)`, `k = 0 .. size-1`, so
that both loops of placement.cpp trace the straight line in either
orientation. -/
def offsetProto (name : String) (size : Nat) : Ship :=
  { name := name, size := (size : Int),
    cells := (List.range size).map fun k => ⟨(k : Int), (k : Int)⟩,
    start := ⟨0, 0⟩, orientation := Orientation.Horizontal, hits := 0, sunk := false }

/-- The board of the spec scenarios: a size-3 ship with id 0 on (2,2),(2,3),(2,4). -/
def cruiserBoard : Board :=
  { grid := fun r c =>
      if r = 2 ∧ (c = 2 ∨ c = 3 ∨ c = 4) then CellState.Ship else CellState.Empty,
    shipIdAt := fun r c => if r = 2 ∧ (c = 2 ∨ c = 3 ∨ c = 4) then 0 else kNoShipId }

/-- The fleet of the spec scenarios: the size-3 ship alone. -/
def cruiserFleet : Fleet := { ships := [offsetProto "Cruiser" 3] }

/-- A ship record that already carries committed data: absolute cells, an
anchor, a vertical orientation, one hit, sunk. -/
def usedPatrol : Ship :=
  { name := "Patrol", size := 1, cells := [⟨5, 5⟩], start := ⟨5, 5⟩,
    orientation := Orientation.Vertical, hits := 1, sunk := true }

/-! ## Lemmas on the two loops -/

/-- Reading a cell inside the board succeeds and yields the grid entry. -/
theorem get_of_isInside (b : Board) (p : Position) (h : Board.isInside p = true) :
    b.get p = Except.ok (b.grid (idx p.row) (idx p.col)) := by
  simp [Board.get, h]

/-- The validation loop answers `true` exactly when every traced cell is
inside the board and `Empty`. -/
theorem canPlaceLoop_true_iff (start : Position) (orient : Orientation) (b : Board)
    (cells : List Position) :
    canPlaceLoop start orient b cells = Except.ok true ↔
      ∀ cell ∈ cells, Board.isInside (shifted start orient cell) = true ∧
        b.grid (idx (shifted start orient cell).row) (idx (shifted start orient cell).col)
          = CellState.Empty := by
  induction cells with
  | nil => simp [canPlaceLoop]
  | cons cell rest ih =>
    by_cases hin : Board.isInside (shifted start orient cell) = true
    · by_cases hE : b.grid (idx (shifted start orient cell).row)
          (idx (shifted start orient cell).col) = CellState.Empty
      · simp [canPlaceLoop, hin, get_of_isInside, hE, ih]
      · simp [canPlaceLoop, hin, get_of_isInside, hE]
    · simp [canPlaceLoop, hin]

/-- The validation loop never reaches the error branch of `Board::get`. -/
theorem canPlaceLoop_total (start : Position) (orient : Orientation) (b : Board)
    (cells : List Position) :
    ∃ r, canPlaceLoop start orient b cells = Except.ok r := by
  induction cells with
  | nil => exact ⟨true, rfl⟩
  | cons cell rest ih =>
    by_cases hin : Board.isInside (shifted start orient cell) = true
    · by_cases hE : b.grid (idx (shifted start orient cell).row)
          (idx (shifted start orient cell).col) = CellState.Empty
      · simpa [canPlaceLoop, hin, get_of_isInside, hE] using ih
      · exact ⟨false, by simp [canPlaceLoop, hin, get_of_isInside, hE]⟩
    · exact ⟨false, by simp [canPlaceLoop, hin]⟩

/-- The commit loop, run on cells that are all inside the board, returns a
board; the entries it writes hold `Ship` and the next id, the others are
untouched. -/
theorem placeLoop_spec (start : Position) (orient : Orientation) (f : Fleet)
    (cells : List Position) :
    ∀ b : Board, (∀ cell ∈ cells, Board.isInside (shifted start orient cell) = true) →
      ∃ b1, placeLoop start orient f cells b = Except.ok b1 ∧
        ∀ r c, (written start orient cells r c →
            b1.grid r c = CellState.Ship ∧ b1.shipIdAt r c = (f.ships.length : Int)) ∧
          (¬ written start orient cells r c →
            b1.grid r c = b.grid r c ∧ b1.shipIdAt r c = b.shipIdAt r c) := by
  induction cells with
  | nil =>
    intro b _
    exact ⟨b, rfl, fun r c => ⟨fun h => by simp [written] at h, fun _ => ⟨rfl, rfl⟩⟩⟩
  | cons cell rest ih =>
    intro b hall
    have hin : Board.isInside (shifted start orient cell) = true :=
      hall cell (List.mem_cons_self _ _)
    have hrest : ∀ x ∈ rest, Board.isInside (shifted start orient x) = true :=
      fun x hx => hall x (List.mem_cons_of_mem _ hx)
    simp only [placeLoop, Board.set, Board.setShipId, hin, if_true]
    obtain ⟨b1, hb1, hspec⟩ := ih _ hrest
    refine ⟨b1, hb1, fun r c => ?_⟩
    obtain ⟨hw, hnw⟩ := hspec r c
    by_cases hr : written start orient rest r c
    · exact ⟨fun _ => hw hr, fun hn => absurd
        (by obtain ⟨x, hx, h1, h2⟩ := hr; exact ⟨x, List.mem_cons_of_mem _ hx, h1, h2⟩) hn⟩
    · have := hnw hr
      by_cases hh : r = idx (shifted start orient cell).row ∧
          c = idx (shifted start orient cell).col
      · refine ⟨fun _ => ?_, fun hn => absurd ⟨cell, List.mem_cons_self _ _, hh.1, hh.2⟩ hn⟩
        simpa [hh] using this
      · refine ⟨fun hwr => ?_, fun _ => ?_⟩
        · obtain ⟨x, hx, h1, h2⟩ := hwr
          rcases List.mem_cons.1 hx with rfl | hx
          · exact absurd ⟨h1, h2⟩ hh
          · exact absurd ⟨x, hx, h1, h2⟩ hr
        · simpa [hh] using this

/-- Two boards with the same grid and the same inverse index are equal. -/
theorem board_ext {b1 b2 : Board} (hg : ∀ r c, b1.grid r c = b2.grid r c)
    (hs : ∀ r c, b1.shipIdAt r c = b2.shipIdAt r c) : b1 = b2 := by
  cases b1; cases b2
  simp only [Board.mk.injEq]
  exact ⟨funext fun r => funext fun c => hg r c, funext fun r => funext fun c => hs r c⟩

/-- `canPlace` never reaches the error branch of `Board::get`. -/
theorem canPlace_total (proto : Ship) (start : Position) (orient : Orientation) (b : Board)
    (f : Fleet) : ∃ r, canPlace proto start orient b f = Except.ok r := by
  unfold canPlace
  split
  · exact ⟨false, rfl⟩
  · exact canPlaceLoop_total _ _ _ _

/-- What `canPlace` answering `true` says about the cells it traced. -/
theorem canPlace_true_iff (proto : Ship) (start : Position) (orient : Orientation) (b : Board)
    (f : Fleet) :
    canPlace proto start orient b f = Except.ok true ↔
      Board.isInside start = true ∧
      ∀ cell ∈ proto.cells, Board.isInside (shifted start orient cell) = true ∧
        b.grid (idx (shifted start orient cell).row) (idx (shifted start orient cell).col)
          = CellState.Empty := by
  unfold canPlace
  by_cases hin : Board.isInside start = true
  · simp [hin, canPlaceLoop_true_iff]
  · simp [hin]

/-- A rejected request: the early `return -1`. -/
theorem place_of_reject (proto : Ship) (start : Position) (orient : Orientation) (b : Board)
    (f : Fleet) (h : canPlace proto start orient b f = Except.ok false) :
    place proto start orient b f = Except.ok (-1, b, f) := by
  simp [place, h]

/-- An accepted request: the commit loop returns a board, the prototype is
pushed and the old length is returned. -/
theorem place_of_accept (proto : Ship) (start : Position) (orient : Orientation) (b : Board)
    (f : Fleet) (h : canPlace proto start orient b f = Except.ok true) :
    ∃ b1, place proto start orient b f
        = Except.ok ((f.ships.length : Int), b1, { ships := f.ships ++ [proto] }) ∧
      ∀ r c, (written start orient proto.cells r c →
            b1.grid r c = CellState.Ship ∧ b1.shipIdAt r c = (f.ships.length : Int)) ∧
          (¬ written start orient proto.cells r c →
            b1.grid r c = b.grid r c ∧ b1.shipIdAt r c = b.shipIdAt r c) := by
  have hc := (canPlace_true_iff proto start orient b f).1 h
  obtain ⟨b1, hb1, hspec⟩ := placeLoop_spec start orient f proto.cells b
    (fun cell hcell => (hc.2 cell hcell).1)
  refine ⟨b1, ?_, hspec⟩
  simp [place, h, hb1]

/-- The board left by `reset` satisfies the invariant. -/
theorem gridIndexInv_empty : gridIndexInv Board.empty := by
  intro r c
  simp [Board.empty]

/-- One `place` call returns and keeps the grid / inverse-index invariant. -/
theorem place_keeps_inv (proto : Ship) (start : Position) (orient : Orientation) (b : Board)
    (f : Fleet) (h : gridIndexInv b) :
    ∃ id b1 f1, place proto start orient b f = Except.ok (id, b1, f1) ∧ gridIndexInv b1 := by
  obtain ⟨ans, hans⟩ := canPlace_total proto start orient b f
  cases ans with
  | false => exact ⟨_, _, _, place_of_reject _ _ _ _ _ hans, h⟩
  | true =>
    obtain ⟨b1, hb1, hspec⟩ := place_of_accept _ _ _ _ _ hans
    refine ⟨_, _, _, hb1, fun r c => ?_⟩
    by_cases hw : written start orient proto.cells r c
    · obtain ⟨hg, hs⟩ := (hspec r c).1 hw
      have : (f.ships.length : Int) ≠ kNoShipId := by
        simp only [kNoShipId]; omega
      simp [hg, hs, this]
    · obtain ⟨hg, hs⟩ := (hspec r c).2 hw
      rw [hg, hs]
      exact h r c

/-- Any sequence of `place` calls returns and keeps the invariant. -/
theorem placeAll_keeps_inv (calls : List PlaceCall) :
    ∀ (b : Board) (f : Fleet), gridIndexInv b →
      ∃ b1 f1, placeAll calls b f = Except.ok (b1, f1) ∧ gridIndexInv b1 := by
  induction calls with
  | nil => intro b f h; exact ⟨b, f, rfl, h⟩
  | cons c rest ih =>
    intro b f h
    obtain ⟨id, b1, f1, hp, h1⟩ := place_keeps_inv c.proto c.start c.orient b f h
    simpa [placeAll, hp] using ih b1 f1 h1

/-! ## The placement contract, claim by claim -/

/-- The scenario board is the one `place` builds from the empty board. -/
theorem cruiser_placed :
    place (offsetProto "Cruiser" 3) ⟨2, 2⟩ Orientation.Horizontal Board.empty Fleet.empty
      = Except.ok (0, cruiserBoard, cruiserFleet) := by
  have hb : ∀ b1 : Board, b1 = cruiserBoard →
      (Except.ok ((0 : Int), b1, cruiserFleet) : Except BoardError (Int × Board × Fleet))
        = Except.ok (0, cruiserBoard, cruiserFleet) := by
    intro b1 h; rw [h]
  refine Eq.trans rfl (hb _ (board_ext ?_ ?_))
  · intro r c; fin_cases r <;> fin_cases c <;> rfl
  · intro r c; fin_cases r <;> fin_cases c <;> rfl

/-- C1 (code evaluated at the failing input): on the board holding the size-3
ship on (2,2),(2,3),(2,4), `canPlace` accepts a valid size-1 prototype at
(1,2), although (2,2), an in-board neighbour of the footprint cell (1,2),
holds a ship. -/
theorem canPlace_ignores_neighbours :
    (offsetProto "Patrol" 1).isValidPrototype = true ∧
    Board.isInside ⟨1, 2⟩ = true ∧
    canPlace (offsetProto "Patrol" 1) ⟨1, 2⟩ Orientation.Vertical cruiserBoard cruiserFleet
      = Except.ok true ∧
    (⟨1, 2⟩ : Position) ∈ footprint ⟨1, 2⟩ Orientation.Vertical (offsetProto "Patrol" 1).size ∧
    (⟨2, 2⟩ : Position) ∈ neighborhood ⟨1, 2⟩ ∧
    cruiserBoard.get ⟨2, 2⟩ = Except.ok CellState.Ship := by
  decide

/-- C2 (code evaluated at the failing input): on the empty board `canPlace`
accepts a valid size-2 prototype without cells at (0,9) Horizontal, although
the footprint cell (0,10) is outside the board. -/
theorem canPlace_accepts_footprint_outside :
    (bareProto "Destroyer" 2).isValidPrototype = true ∧
    Board.isInside ⟨0, 9⟩ = true ∧
    canPlace (bareProto "Destroyer" 2) ⟨0, 9⟩ Orientation.Horizontal Board.empty Fleet.empty
      = Except.ok true ∧
    (⟨0, 10⟩ : Position) ∈ footprint ⟨0, 9⟩ Orientation.Horizontal (bareProto "Destroyer" 2).size ∧
    Board.isInside ⟨0, 10⟩ = false := by
  decide

/-- C3 (code evaluated at the failing input): `canPlace` accepts a valid
size-1 prototype without cells at (2,2), a cell that holds a ship. -/
theorem canPlace_accepts_occupied_footprint :
    (bareProto "Patrol" 1).isValidPrototype = true ∧
    Board.isInside ⟨2, 2⟩ = true ∧
    canPlace (bareProto "Patrol" 1) ⟨2, 2⟩ Orientation.Horizontal cruiserBoard cruiserFleet
      = Except.ok true ∧
    (⟨2, 2⟩ : Position) ∈ footprint ⟨2, 2⟩ Orientation.Horizontal (bareProto "Patrol" 1).size ∧
    cruiserBoard.get ⟨2, 2⟩ = Except.ok CellState.Ship := by
  decide

/-- C4 (code evaluated at the failing input): on the empty board the footprint
of a valid size-1 prototype at (5,5) is inside, `Empty` and has only `Empty`
neighbours, and `canPlace` rejects it because the prototype carries the cell
(5,5), which the loop adds to the anchor. -/
theorem canPlace_rejects_legal_footprint :
    usedPatrol.isValidPrototype = true ∧
    Board.isInside ⟨5, 5⟩ = true ∧
    (∀ p ∈ footprint ⟨5, 5⟩ Orientation.Horizontal usedPatrol.size,
      Board.isInside p = true ∧ Board.empty.get p = Except.ok CellState.Empty ∧
      ∀ q ∈ neighborhood p, Board.empty.get q = Except.ok CellState.Empty) ∧
    canPlace usedPatrol ⟨5, 5⟩ Orientation.Horizontal Board.empty Fleet.empty
      = Except.ok false := by
  decide

/-- C5: when `canPlace` returns false, `place` returns the sentinel -1 and
hands back the very board (grid and inverse index) and fleet it received. -/
theorem place_rejected_is_atomic (proto : Ship) (start : Position) (orient : Orientation)
    (b : Board) (f : Fleet) (h : canPlace proto start orient b f = Except.ok false) :
    place proto start orient b f = Except.ok (-1, b, f) :=
  place_of_reject proto start orient b f h

/-- C5 at the spec scenario: a size-2 ship at (1,2) Vertical is rejected on
the board that holds the size-3 ship. -/
theorem place_rejected_is_atomic_witness :
    canPlace (offsetProto "Destroyer" 2) ⟨1, 2⟩ Orientation.Vertical cruiserBoard cruiserFleet
      = Except.ok false ∧
    place (offsetProto "Destroyer" 2) ⟨1, 2⟩ Orientation.Vertical cruiserBoard cruiserFleet
      = Except.ok (-1, cruiserBoard, cruiserFleet) :=
  ⟨by decide, place_rejected_is_atomic _ _ _ _ _ (by decide)⟩

/-- C6: when `canPlace` returns true, `place` returns the length the fleet had
before the call, a non-negative id different from -1; the fleet afterwards is
one ship longer, holds the new ship at the returned index and every earlier
ship unchanged at its index. -/
theorem place_accepted_appends (proto : Ship) (start : Position) (orient : Orientation)
    (b : Board) (f : Fleet) (h : canPlace proto start orient b f = Except.ok true) :
    ∃ id b1 f1, place proto start orient b f = Except.ok (id, b1, f1) ∧
      id = (f.ships.length : Int) ∧ 0 ≤ id ∧ id ≠ -1 ∧
      f1.ships.length = f.ships.length + 1 ∧
      f1.ships[id.toNat]? = some proto ∧
      ∀ i, i < f.ships.length → f1.ships[i]? = f.ships[i]? := by
  obtain ⟨b1, hb1, _⟩ := place_of_accept proto start orient b f h
  refine ⟨_, b1, _, hb1, rfl, by omega, by omega, by simp, by simp, ?_⟩
  intro i hi
  simp [List.getElem?_append_left hi]

/-- C6 at the spec scenario: with the size-3 ship placed, a size-1 ship at
(4,4) is accepted and gets id 1. -/
theorem place_accepted_appends_witness :
    canPlace (offsetProto "Patrol" 1) ⟨4, 4⟩ Orientation.Horizontal cruiserBoard cruiserFleet
      = Except.ok true ∧
    ∃ id b1 f1,
      place (offsetProto "Patrol" 1) ⟨4, 4⟩ Orientation.Horizontal cruiserBoard cruiserFleet
        = Except.ok (id, b1, f1) ∧
      id = ((cruiserFleet.ships.length : Nat) : Int) ∧ 0 ≤ id ∧ id ≠ -1 ∧
      f1.ships.length = cruiserFleet.ships.length + 1 ∧
      f1.ships[id.toNat]? = some (offsetProto "Patrol" 1) ∧
      ∀ i, i < cruiserFleet.ships.length → f1.ships[i]? = cruiserFleet.ships[i]? :=
  ⟨by decide, place_accepted_appends _ _ _ _ _ (by decide)⟩

/-- C7 (code evaluated at the failing input): on the empty board and fleet
`place` accepts a valid size-1 prototype without cells at (0,0), returns id 0
and hands back the empty board: the footprint cell (0,0) is still `Empty` and
its inverse-index entry is still `kNoShipId`, not 0. -/
theorem place_leaves_footprint_unmarked :
    (bareProto "Patrol" 1).isValidPrototype = true ∧
    canPlace (bareProto "Patrol" 1) ⟨0, 0⟩ Orientation.Horizontal Board.empty Fleet.empty
      = Except.ok true ∧
    place (bareProto "Patrol" 1) ⟨0, 0⟩ Orientation.Horizontal Board.empty Fleet.empty
      = Except.ok (0, Board.empty, { ships := [bareProto "Patrol" 1] }) ∧
    (⟨0, 0⟩ : Position) ∈ footprint ⟨0, 0⟩ Orientation.Horizontal (bareProto "Patrol" 1).size ∧
    Board.empty.get ⟨0, 0⟩ = Except.ok CellState.Empty ∧
    Board.empty.getShipId ⟨0, 0⟩ = Except.ok kNoShipId := by
  refine ⟨by decide, by decide, rfl, by decide, by decide, by decide⟩

/-- C8 (code evaluated at the failing input): `place` of a record whose own
fields are start (5,5), Vertical, hits 1, sunk, at anchor (0,0) Horizontal on
the empty board succeeds with id 0, and the ship appended to the fleet is
that record unchanged: its start is not the anchor, its orientation is not
the requested one, its hits are not 0 and it is sunk. -/
theorem place_appends_prototype_verbatim :
    ∃ b1 f1, place usedPatrol ⟨0, 0⟩ Orientation.Horizontal Board.empty Fleet.empty
        = Except.ok (0, b1, f1) ∧
      f1.ships[0]? = some usedPatrol ∧
      usedPatrol.start ≠ ⟨0, 0⟩ ∧ usedPatrol.orientation ≠ Orientation.Horizontal ∧
      usedPatrol.hits ≠ 0 ∧ usedPatrol.sunk ≠ false :=
  ⟨_, _, rfl, rfl, by decide, by decide, by decide, by decide⟩

/-- C9 (code evaluated at the failing input): `place` of the valid size-2
prototype with cells (0,0),(1,1) at (2,2) Horizontal on the empty board
succeeds with id 0 and writes (2,2),(2,3) on the board, and the cells list of
the appended ship is still (0,0),(1,1): not the sequence (2,2),(2,3) derived
from the anchor, and its first element is not the anchor. -/
theorem place_appends_prototype_cells :
    (offsetProto "Destroyer" 2).isValidPrototype = true ∧
    footprint ⟨2, 2⟩ Orientation.Horizontal (offsetProto "Destroyer" 2).size
      = [⟨2, 2⟩, ⟨2, 3⟩] ∧
    ∃ b1 f1 s,
      place (offsetProto "Destroyer" 2) ⟨2, 2⟩ Orientation.Horizontal Board.empty Fleet.empty
        = Except.ok (0, b1, f1) ∧
      b1.get ⟨2, 2⟩ = Except.ok CellState.Ship ∧ b1.get ⟨2, 3⟩ = Except.ok CellState.Ship ∧
      f1.ships[0]? = some s ∧ s.cells = [⟨0, 0⟩, ⟨1, 1⟩] ∧
      s.cells ≠ footprint ⟨2, 2⟩ Orientation.Horizontal (offsetProto "Destroyer" 2).size ∧
      s.cells.head? ≠ some ⟨2, 2⟩ :=
  ⟨by decide, by decide, _, _, _, rfl, by decide, by decide, rfl, by decide, by decide,
    by decide⟩

/-- C10: on a board that satisfies the grid / inverse-index invariant every
`place` call, accepted or rejected, returns a board that satisfies it; and
every sequence of `place` calls from the empty board and the empty fleet
returns a board that satisfies it. -/
theorem place_preserves_gridIndexInv (proto : Ship) (start : Position) (orient : Orientation)
    (b : Board) (f : Fleet) (h : gridIndexInv b) :
    (∃ id b1 f1, place proto start orient b f = Except.ok (id, b1, f1) ∧ gridIndexInv b1) ∧
    gridIndexInv Board.empty ∧
    ∀ calls : List PlaceCall, ∃ b1 f1,
      placeAll calls Board.empty Fleet.empty = Except.ok (b1, f1) ∧ gridIndexInv b1 :=
  ⟨place_keeps_inv proto start orient b f h, gridIndexInv_empty,
    fun calls => placeAll_keeps_inv calls Board.empty Fleet.empty gridIndexInv_empty⟩

/-- C10 on the scenario board: the size-1 ship placed at (4,4). -/
theorem place_preserves_gridIndexInv_witness :
    gridIndexInv cruiserBoard ∧
    (∃ id b1 f1,
      place (offsetProto "Patrol" 1) ⟨4, 4⟩ Orientation.Horizontal cruiserBoard cruiserFleet
        = Except.ok (id, b1, f1) ∧ gridIndexInv b1) ∧
    gridIndexInv Board.empty ∧
    ∀ calls : List PlaceCall, ∃ b1 f1,
      placeAll calls Board.empty Fleet.empty = Except.ok (b1, f1) ∧ gridIndexInv b1 :=
  have hc : gridIndexInv cruiserBoard := by
    intro r c; fin_cases r <;> fin_cases c <;> decide
  ⟨hc, place_preserves_gridIndexInv _ _ _ _ _ hc⟩

/-! ## More lemmas -/

/-- What `isInside` tests, as inequalities. -/
theorem isInside_iff (p : Position) :
    Board.isInside p = true ↔ 0 ≤ p.row ∧ p.row < 10 ∧ 0 ≤ p.col ∧ p.col < 10 := by
  simp [Board.isInside, kSize, and_assoc]

/-- Distinct coordinates in `[0,9]` have distinct array indices. -/
theorem idx_inj {i j : Int} (hi : 0 ≤ i ∧ i < 10) (hj : 0 ≤ j ∧ j < 10) (h : idx i = idx j) :
    i = j := by
  simp only [idx, Fin.mk.injEq] at h
  omega

/-- The explicit cell of the characterisation is the one the loops compute. -/
theorem tracedCell_eq_shifted (start : Position) (orient : Orientation) (c : Position) :
    tracedCell start orient c = shifted start orient c := by
  cases orient <;> simp [tracedCell, shifted]

/-- The state-passing loop returns the answer of the loop and the state it got. -/
theorem canPlaceLoopRun_eq (start : Position) (orient : Orientation) (b : Board) (f : Fleet)
    (cells : List Position) (r : Bool) (h : canPlaceLoop start orient b cells = Except.ok r) :
    canPlaceLoopRun start orient cells b f = Except.ok (r, b, f) := by
  induction cells with
  | nil => simp [canPlaceLoop] at h; simp [canPlaceLoopRun, h]
  | cons cell rest ih =>
    by_cases hin : Board.isInside (shifted start orient cell) = true
    · by_cases hE : b.grid (idx (shifted start orient cell).row)
          (idx (shifted start orient cell).col) = CellState.Empty
      · simp [canPlaceLoop, hin, get_of_isInside, hE] at h
        simpa [canPlaceLoopRun, hin, get_of_isInside, hE] using ih h
      · simp [canPlaceLoop, hin, get_of_isInside, hE] at h
        simp [canPlaceLoopRun, hin, get_of_isInside, hE, h]
    · simp [canPlaceLoop, hin] at h
      simp [canPlaceLoopRun, hin, h]

/-- `place` never reaches the error branch of a `Board` accessor. -/
theorem place_total (proto : Ship) (start : Position) (orient : Orientation) (b : Board)
    (f : Fleet) : ∃ id b1 f1, place proto start orient b f = Except.ok (id, b1, f1) := by
  obtain ⟨ans, hans⟩ := canPlace_total proto start orient b f
  cases ans with
  | false => exact ⟨_, _, _, place_of_reject _ _ _ _ _ hans⟩
  | true =>
    obtain ⟨b1, hb1, _⟩ := place_of_accept _ _ _ _ _ hans
    exact ⟨_, _, _, hb1⟩

/-- An anchor outside the board is answered `false` before the loop. -/
theorem canPlace_of_outside (proto : Ship) (start : Position) (orient : Orientation)
    (b : Board) (f : Fleet) (h : Board.isInside start = false) :
    canPlace proto start orient b f = Except.ok false := by
  simp [canPlace, h]

/-- The validation loop reads the board through its grid only. -/
theorem canPlaceLoop_congr (start : Position) (orient : Orientation) (b b2 : Board)
    (hg : b2.grid = b.grid) (cells : List Position) :
    canPlaceLoop start orient b2 cells = canPlaceLoop start orient b cells := by
  induction cells with
  | nil => rfl
  | cons cell rest ih => simp only [canPlaceLoop, Board.get, hg, ih]

/-- A `place` call that returns an id other than -1 went through an accepting
`canPlace`. -/
theorem canPlace_of_place_id (proto : Ship) (start : Position) (orient : Orientation)
    (b : Board) (f : Fleet) (id : Int) (b1 : Board) (f1 : Fleet)
    (hp : place proto start orient b f = Except.ok (id, b1, f1)) (hid : id ≠ -1) :
    canPlace proto start orient b f = Except.ok true := by
  obtain ⟨r, hr⟩ := canPlace_total proto start orient b f
  cases r with
  | true => exact hr
  | false =>
    rw [place_of_reject _ _ _ _ _ hr] at hp
    simp only [Except.ok.injEq, Prod.mk.injEq] at hp
    exact absurd hp.1.symm hid

/-- Two positions with the same coordinates are the same position. -/
theorem position_eq {p q : Position} (hr : p.row = q.row) (hc : p.col = q.col) : p = q := by
  cases p; cases q; simp_all

/-- An array entry written by the commit loop belongs to the traced cell of
some element of the cells list; for a position inside the board that cell is
the position itself. -/
theorem written_inside (start : Position) (orient : Orientation) (cells : List Position)
    (p : Position) (hp : Board.isInside p = true)
    (hall : ∀ cell ∈ cells, Board.isInside (shifted start orient cell) = true)
    (hw : written start orient cells (idx p.row) (idx p.col)) :
    ∃ cell ∈ cells, p = shifted start orient cell := by
  obtain ⟨cell, hmem, h1, h2⟩ := hw
  have hq := (isInside_iff _).1 (hall cell hmem)
  have hp2 := (isInside_iff _).1 hp
  exact ⟨cell, hmem, position_eq (idx_inj ⟨hp2.1, hp2.2.1⟩ ⟨hq.1, hq.2.1⟩ h1)
    (idx_inj ⟨hp2.2.2.1, hp2.2.2.2⟩ ⟨hq.2.2.1, hq.2.2.2⟩ h2)⟩

/-- The empty board and the empty fleet have only sentinel ids. -/
theorem idsValid_empty : idsValid Board.empty Fleet.empty := by
  intro r c
  exact Or.inl rfl

/-- One `place` call returns and keeps every id on the board an index into
the fleet. -/
theorem place_keeps_idsValid (proto : Ship) (start : Position) (orient : Orientation)
    (b : Board) (f : Fleet) (h : idsValid b f) :
    ∃ id b1 f1, place proto start orient b f = Except.ok (id, b1, f1) ∧ idsValid b1 f1 := by
  obtain ⟨ans, hans⟩ := canPlace_total proto start orient b f
  cases ans with
  | false => exact ⟨_, _, _, place_of_reject _ _ _ _ _ hans, h⟩
  | true =>
    obtain ⟨b1, hb1, hspec⟩ := place_of_accept _ _ _ _ _ hans
    refine ⟨_, _, _, hb1, fun r c => ?_⟩
    by_cases hw : written start orient proto.cells r c
    · obtain ⟨_, hs⟩ := (hspec r c).1 hw
      right
      rw [hs]
      simp
    · obtain ⟨_, hs⟩ := (hspec r c).2 hw
      rw [hs]
      rcases h r c with h0 | ⟨h1, h2⟩
      · exact Or.inl h0
      · right
        refine ⟨h1, ?_⟩
        simp only [List.length_append, List.length_singleton, Nat.cast_add, Nat.cast_one]
        omega

/-- Any sequence of `place` calls returns and keeps every id on the board an
index into the fleet. -/
theorem placeAll_keeps_idsValid (calls : List PlaceCall) :
    ∀ (b : Board) (f : Fleet), idsValid b f →
      ∃ b1 f1, placeAll calls b f = Except.ok (b1, f1) ∧ idsValid b1 f1 := by
  induction calls with
  | nil => intro b f h; exact ⟨b, f, rfl, h⟩
  | cons c rest ih =>
    intro b f h
    obtain ⟨id, b1, f1, hp, h1⟩ := place_keeps_idsValid c.proto c.start c.orient b f h
    simpa [placeAll, hp] using ih b1 f1 h1

/-! ## The placement contract, continued -/

/-- C14: `canPlace` returns its answer and leaves the board (grid and inverse
index) and the fleet exactly as it received them, whatever the answer; a
second call with the same arguments on the board and fleet the first call
left behind returns the same answer and the same state. -/
theorem canPlace_is_pure (proto : Ship) (start : Position) (orient : Orientation)
    (b : Board) (f : Fleet) :
    ∃ r, canPlaceRun proto start orient b f = Except.ok (r, b, f) ∧
      canPlace proto start orient b f = Except.ok r ∧
      (canPlaceRun proto start orient b f >>= fun x =>
        canPlaceRun proto start orient x.2.1 x.2.2) = Except.ok (r, b, f) := by
  obtain ⟨r, hr⟩ := canPlace_total proto start orient b f
  have hrun : canPlaceRun proto start orient b f = Except.ok (r, b, f) := by
    unfold canPlaceRun
    unfold canPlace at hr
    by_cases hin : Board.isInside start = true
    · simp only [hin, Bool.not_true, Bool.false_eq_true, if_false] at hr ⊢
      exact canPlaceLoopRun_eq _ _ _ _ _ _ hr
    · simp only [hin, Bool.not_eq_true] at hr ⊢
      simp at hin
      simp [hin] at hr ⊢
      exact hr
  refine ⟨r, hrun, hr, ?_⟩
  rw [hrun]
  exact hrun

/-- C15: for every prototype, whatever its cells list, `canPlace` and `place`
return without an out-of-bounds error, while each `Board` accessor they use
fails on every position outside the board: no accessor is ever called on
such a position. -/
theorem placement_respects_board_precondition (proto : Ship) (start : Position)
    (orient : Orientation) (b : Board) (f : Fleet) :
    (∃ r, canPlace proto start orient b f = Except.ok r) ∧
    (∃ id b1 f1, place proto start orient b f = Except.ok (id, b1, f1)) ∧
    ∀ (b0 : Board) (p : Position) (s : CellState) (i : Int), Board.isInside p = false →
      b0.get p = Except.error BoardError.outOfBounds ∧
      b0.set p s = Except.error BoardError.outOfBounds ∧
      b0.setShipId p i = Except.error BoardError.outOfBounds :=
  ⟨canPlace_total proto start orient b f, place_total proto start orient b f,
    fun b0 p s i h => by simp [Board.get, Board.set, Board.setShipId, h]⟩

/-- C16: when the anchor has its row or its column outside `[0,9]`, `canPlace`
returns false and `place` returns -1 with the board and the fleet it
received. -/
theorem outside_anchor_rejected (proto : Ship) (start : Position) (orient : Orientation)
    (b : Board) (f : Fleet)
    (h : start.row < 0 ∨ 9 < start.row ∨ start.col < 0 ∨ 9 < start.col) :
    canPlace proto start orient b f = Except.ok false ∧
    place proto start orient b f = Except.ok (-1, b, f) := by
  have hout : Board.isInside start = false := by
    cases hin : Board.isInside start with
    | false => rfl
    | true =>
      have := (isInside_iff start).1 hin
      omega
  exact ⟨canPlace_of_outside _ _ _ _ _ hout,
    place_of_reject _ _ _ _ _ (canPlace_of_outside _ _ _ _ _ hout)⟩

/-- C16 at the anchor (3,10) on the scenario board. -/
theorem outside_anchor_rejected_witness :
    ((3 : Int) < 0 ∨ 9 < (3 : Int) ∨ (10 : Int) < 0 ∨ 9 < (10 : Int)) ∧
    canPlace (offsetProto "Patrol" 1) ⟨3, 10⟩ Orientation.Vertical cruiserBoard cruiserFleet
      = Except.ok false ∧
    place (offsetProto "Patrol" 1) ⟨3, 10⟩ Orientation.Vertical cruiserBoard cruiserFleet
      = Except.ok (-1, cruiserBoard, cruiserFleet) :=
  ⟨by decide, outside_anchor_rejected _ ⟨3, 10⟩ _ _ _ (by decide)⟩

/-- C17: `canPlace` returns true exactly when the anchor is inside the board
and every element `c` of `proto.cells` traces a cell, `(start.row,
start.col + c.col)` when Horizontal and `(start.row + c.row, start.col)` when
Vertical, that is inside the board and `Empty`; otherwise it returns false.
The answer is the same for any other prototype with the same cells list
(whatever its size and name), any other fleet and any board with the same
grid; with an empty cells list it is true for every anchor inside the board. -/
theorem canPlace_exact (proto : Ship) (start : Position) (orient : Orientation)
    (b : Board) (f : Fleet) :
    (canPlace proto start orient b f = Except.ok true ↔
      Board.isInside start = true ∧
      ∀ c ∈ proto.cells, Board.isInside (tracedCell start orient c) = true ∧
        b.get (tracedCell start orient c) = Except.ok CellState.Empty) ∧
    (canPlace proto start orient b f = Except.ok true ∨
      canPlace proto start orient b f = Except.ok false) ∧
    (∀ (proto2 : Ship) (b2 : Board) (f2 : Fleet),
      proto2.cells = proto.cells → b2.grid = b.grid →
      canPlace proto2 start orient b2 f2 = canPlace proto start orient b f) ∧
    (proto.cells = [] → Board.isInside start = true →
      canPlace proto start orient b f = Except.ok true) := by
  refine ⟨?_, ?_, ?_, ?_⟩
  · rw [canPlace_true_iff]
    constructor
    · rintro ⟨hs, hc⟩
      refine ⟨hs, fun c hcm => ?_⟩
      obtain ⟨hin, hE⟩ := hc c hcm
      rw [tracedCell_eq_shifted]
      exact ⟨hin, by rw [get_of_isInside _ _ hin, hE]⟩
    · rintro ⟨hs, hc⟩
      refine ⟨hs, fun c hcm => ?_⟩
      obtain ⟨hin, hE⟩ := hc c hcm
      rw [tracedCell_eq_shifted] at hin hE
      rw [get_of_isInside _ _ hin] at hE
      exact ⟨hin, by simpa using hE⟩
  · obtain ⟨r, hr⟩ := canPlace_total proto start orient b f
    cases r with
    | true => exact Or.inl hr
    | false => exact Or.inr hr
  · intro proto2 b2 f2 hc hg
    simp only [canPlace, hc, canPlaceLoop_congr start orient b b2 hg]
  · intro hc hs
    rw [canPlace_true_iff]
    exact ⟨hs, by simp [hc]⟩

/-- C11 (code evaluated at the failing input): from the empty board and fleet,
placing the valid size-3 prototype at (2,2) Horizontal and then the valid
size-1 prototype at (1,2) Vertical returns a board whose inverse index holds
id 1 at (1,2) and id 0 at (2,2), two cells that are 8-neighbours. -/
theorem placeAll_lets_ships_touch :
    (offsetProto "Cruiser" 3).isValidPrototype = true ∧
    (offsetProto "Patrol" 1).isValidPrototype = true ∧
    (⟨2, 2⟩ : Position) ∈ neighborhood ⟨1, 2⟩ ∧
    ∃ b1 f1,
      placeAll [⟨offsetProto "Cruiser" 3, ⟨2, 2⟩, Orientation.Horizontal⟩,
          ⟨offsetProto "Patrol" 1, ⟨1, 2⟩, Orientation.Vertical⟩] Board.empty Fleet.empty
        = Except.ok (b1, f1) ∧
      b1.getShipId ⟨1, 2⟩ = Except.ok 1 ∧ b1.getShipId ⟨2, 2⟩ = Except.ok 0 :=
  ⟨by decide, by decide, by decide, _, _, rfl, by decide, by decide⟩

/-- C12 (code evaluated at the failing input): from the empty board and fleet,
placing the valid size-2 prototype at (0,0) Horizontal and then the valid
size-1 prototype at (5,5) Horizontal returns a fleet of two ships whose cells
lists both contain the position (0,0). -/
theorem placeAll_fleet_cells_overlap :
    (offsetProto "Destroyer" 2).isValidPrototype = true ∧
    (offsetProto "Patrol" 1).isValidPrototype = true ∧
    ∃ b1 f1 s0 s1,
      placeAll [⟨offsetProto "Destroyer" 2, ⟨0, 0⟩, Orientation.Horizontal⟩,
          ⟨offsetProto "Patrol" 1, ⟨5, 5⟩, Orientation.Horizontal⟩] Board.empty Fleet.empty
        = Except.ok (b1, f1) ∧
      f1.ships[0]? = some s0 ∧ f1.ships[1]? = some s1 ∧
      (⟨0, 0⟩ : Position) ∈ s0.cells ∧ (⟨0, 0⟩ : Position) ∈ s1.cells :=
  ⟨by decide, by decide, _, _, _, _, rfl, rfl, rfl, by decide, by decide⟩

/-- C13 (code evaluated at the failing input): from the empty board and fleet,
placing the valid size-1 prototype at (5,5) Horizontal returns a fleet whose
ship 0 lists the cell (0,0), a position inside the board whose inverse-index
entry is `kNoShipId`, not 0; id 0 is at (5,5). -/
theorem placeAll_fleet_cells_off_index :
    (offsetProto "Patrol" 1).isValidPrototype = true ∧
    ∃ b1 f1 s0,
      placeAll [⟨offsetProto "Patrol" 1, ⟨5, 5⟩, Orientation.Horizontal⟩]
          Board.empty Fleet.empty = Except.ok (b1, f1) ∧
      f1.ships[0]? = some s0 ∧ (⟨0, 0⟩ : Position) ∈ s0.cells ∧
      Board.isInside ⟨0, 0⟩ = true ∧
      b1.getShipId ⟨0, 0⟩ = Except.ok kNoShipId ∧ b1.getShipId ⟨0, 0⟩ ≠ Except.ok 0 ∧
      b1.getShipId ⟨5, 5⟩ = Except.ok 0 :=
  ⟨by decide, _, _, _, rfl, rfl, by decide, by decide, by decide, by decide, by decide⟩

/-- C18: after a `place` call that succeeds (returns an id other than -1),
every cell inside the board whose state was not `Empty` keeps its state and
its ship id, and every cell inside the board that is not the traced cell of
an element of `proto.cells` keeps its state and its ship id. -/
theorem place_frame (proto : Ship) (start : Position) (orient : Orientation)
    (b : Board) (f : Fleet) (id : Int) (b1 : Board) (f1 : Fleet)
    (hp : place proto start orient b f = Except.ok (id, b1, f1)) (hid : id ≠ -1) :
    ∀ p, Board.isInside p = true →
      (b.get p ≠ Except.ok CellState.Empty →
        b1.get p = b.get p ∧ b1.getShipId p = b.getShipId p) ∧
      ((∀ c ∈ proto.cells, p ≠ tracedCell start orient c) →
        b1.get p = b.get p ∧ b1.getShipId p = b.getShipId p) := by
  have hcan := canPlace_of_place_id _ _ _ _ _ _ _ _ hp hid
  obtain ⟨b2, hb2, hspec⟩ := place_of_accept _ _ _ _ _ hcan
  have hc := (canPlace_true_iff proto start orient b f).1 hcan
  rw [hb2] at hp
  simp only [Except.ok.injEq, Prod.mk.injEq] at hp
  obtain ⟨_, hb, _⟩ := hp
  subst hb
  intro p hin
  have hkeep : ¬ written start orient proto.cells (idx p.row) (idx p.col) →
      b2.get p = b.get p ∧ b2.getShipId p = b.getShipId p := by
    intro hnw
    obtain ⟨hg, hs⟩ := (hspec _ _).2 hnw
    simp [Board.get, Board.getShipId, hin, hg, hs]
  refine ⟨fun hne => hkeep ?_, fun hne => hkeep ?_⟩
  · rintro ⟨cell, hmem, h1, h2⟩
    apply hne
    rw [get_of_isInside _ _ hin, h1, h2, (hc.2 cell hmem).2]
  · intro hw
    obtain ⟨cell, hmem, heq⟩ := written_inside start orient proto.cells p hin
      (fun cell hcell => (hc.2 cell hcell).1) hw
    exact hne cell hmem (by rw [tracedCell_eq_shifted]; exact heq)

/-- C18 on the scenario board: the size-1 ship placed at (4,4) with id 1. -/
theorem place_frame_witness :
    ∃ b1 f1,
      place (offsetProto "Patrol" 1) ⟨4, 4⟩ Orientation.Horizontal cruiserBoard cruiserFleet
        = Except.ok (1, b1, f1) ∧ (1 : Int) ≠ -1 ∧
      ∀ p, Board.isInside p = true →
        (cruiserBoard.get p ≠ Except.ok CellState.Empty →
          b1.get p = cruiserBoard.get p ∧ b1.getShipId p = cruiserBoard.getShipId p) ∧
        ((∀ c ∈ (offsetProto "Patrol" 1).cells,
            p ≠ tracedCell ⟨4, 4⟩ Orientation.Horizontal c) →
          b1.get p = cruiserBoard.get p ∧ b1.getShipId p = cruiserBoard.getShipId p) :=
  ⟨_, _, rfl, by decide, place_frame _ _ _ _ _ _ _ _ rfl (by decide)⟩

/-- C19: when every entry of the inverse index is `kNoShipId` or an index into
the fleet, a `place` call, accepted or rejected, returns a board and a fleet
for which this still holds; and every sequence of `place` calls from the empty
board and the empty fleet returns a board on which every id other than
`kNoShipId` is the index of a ship of the returned fleet. -/
theorem place_preserves_idsValid (proto : Ship) (start : Position) (orient : Orientation)
    (b : Board) (f : Fleet) (h : idsValid b f) :
    (∃ id b1 f1, place proto start orient b f = Except.ok (id, b1, f1) ∧ idsValid b1 f1) ∧
    idsValid Board.empty Fleet.empty ∧
    ∀ calls : List PlaceCall, ∃ b1 f1,
      placeAll calls Board.empty Fleet.empty = Except.ok (b1, f1) ∧ idsValid b1 f1 ∧
      ∀ r c, b1.shipIdAt r c ≠ kNoShipId →
        0 ≤ b1.shipIdAt r c ∧ ∃ s, f1.ships[(b1.shipIdAt r c).toNat]? = some s := by
  refine ⟨place_keeps_idsValid proto start orient b f h, idsValid_empty, fun calls => ?_⟩
  obtain ⟨b1, f1, hrun, hv⟩ := placeAll_keeps_idsValid calls Board.empty Fleet.empty
    idsValid_empty
  refine ⟨b1, f1, hrun, hv, fun r c hne => ?_⟩
  rcases hv r c with h0 | ⟨h1, h2⟩
  · exact absurd h0 hne
  · have hlt : (b1.shipIdAt r c).toNat < f1.ships.length := by omega
    exact ⟨h1, f1.ships[(b1.shipIdAt r c).toNat], List.getElem?_eq_getElem hlt⟩

/-- C19 on the scenario board and fleet: the size-1 ship placed at (4,4). -/
theorem place_preserves_idsValid_witness :
    idsValid cruiserBoard cruiserFleet ∧
    (∃ id b1 f1,
      place (offsetProto "Patrol" 1) ⟨4, 4⟩ Orientation.Horizontal cruiserBoard cruiserFleet
        = Except.ok (id, b1, f1) ∧ idsValid b1 f1) ∧
    idsValid Board.empty Fleet.empty ∧
    ∀ calls : List PlaceCall, ∃ b1 f1,
      placeAll calls Board.empty Fleet.empty = Except.ok (b1, f1) ∧ idsValid b1 f1 ∧
      ∀ r c, b1.shipIdAt r c ≠ kNoShipId →
        0 ≤ b1.shipIdAt r c ∧ ∃ s, f1.ships[(b1.shipIdAt r c).toNat]? = some s :=
  have hc : idsValid cruiserBoard cruiserFleet := by
    intro r c; fin_cases r <;> fin_cases c <;> decide
  ⟨hc, place_preserves_idsValid _ _ _ _ _ hc⟩

/-- C20: when the cells list of the prototype is not empty and `place`
succeeds (returns an id other than -1), `canPlace` with the same prototype,
anchor and orientation on the board and fleet it leaves returns false, and a
second `place` with the same arguments returns -1 and hands back that board
and that fleet. -/
theorem place_twice_rejected (proto : Ship) (start : Position) (orient : Orientation)
    (b : Board) (f : Fleet) (id : Int) (b1 : Board) (f1 : Fleet)
    (hne : proto.cells ≠ [])
    (hp : place proto start orient b f = Except.ok (id, b1, f1)) (hid : id ≠ -1) :
    canPlace proto start orient b1 f1 = Except.ok false ∧
    place proto start orient b1 f1 = Except.ok (-1, b1, f1) := by
  have hcan := canPlace_of_place_id _ _ _ _ _ _ _ _ hp hid
  obtain ⟨b2, hb2, hspec⟩ := place_of_accept _ _ _ _ _ hcan
  rw [hb2] at hp
  simp only [Except.ok.injEq, Prod.mk.injEq] at hp
  obtain ⟨_, hb, _⟩ := hp
  subst hb
  have hrej : canPlace proto start orient b2 f1 = Except.ok false := by
    obtain ⟨r, hr⟩ := canPlace_total proto start orient b2 f1
    cases r with
    | false => exact hr
    | true =>
      exfalso
      obtain ⟨c0, hc0⟩ := List.exists_mem_of_ne_nil _ hne
      have hE := ((canPlace_true_iff proto start orient b2 f1).1 hr).2 c0 hc0
      have hS := ((hspec _ _).1 ⟨c0, hc0, rfl, rfl⟩).1
      rw [hS] at hE
      exact absurd hE.2 (by decide)
  exact ⟨hrej, place_of_reject _ _ _ _ _ hrej⟩

/-- C20 at the first placement of the scenarios: the size-3 ship placed at
(2,2) Horizontal on the empty board cannot be placed there again. -/
theorem place_twice_rejected_witness :
    (offsetProto "Cruiser" 3).cells ≠ [] ∧
    place (offsetProto "Cruiser" 3) ⟨2, 2⟩ Orientation.Horizontal Board.empty Fleet.empty
      = Except.ok (0, cruiserBoard, cruiserFleet) ∧ (0 : Int) ≠ -1 ∧
    canPlace (offsetProto "Cruiser" 3) ⟨2, 2⟩ Orientation.Horizontal cruiserBoard cruiserFleet
      = Except.ok false ∧
    place (offsetProto "Cruiser" 3) ⟨2, 2⟩ Orientation.Horizontal cruiserBoard cruiserFleet
      = Except.ok (-1, cruiserBoard, cruiserFleet) :=
  ⟨by decide, cruiser_placed, by decide,
    place_twice_rejected _ _ _ _ _ _ _ _ (by decide) cruiser_placed (by decide)⟩

end Battleship
